import Mathlib

/-!
Verification of the `restclient` package (a thin REST client over an HTTP
transport).  The shallow embedding below translates the package's source
(`client.go`, newer variant with `checkURL` / `requestToMap` / lazy
`extractValues`) into executable Lean definitions:

* JSON documents are modelled by the inductive `Json`; response bodies are raw
  strings and `parseJson` models `encoding/json.Unmarshal` into
  `map[string]interface{}` on the JSON subdomain used by this package
  (integer-valued numbers, the common string escapes, no `\uXXXX`, no floats).
* Go errors are `Option String` (`none` = nil error); a Go `panic`
  (nil-pointer dereference) is modelled by an outer `Option` being `none` on
  functions that can dereference a nil `*resty.Response`: the resty `Response`
  methods (`Body()`, `StatusCode()`, `Status()`) read fields of their pointer
  receiver, so calling them on a nil response panics.
* The HTTP transport (resty) is an external collaborator: it is modelled as an
  abstract function from method, target URL and built request to a response
  and an error, exactly the interface the package uses.
-/

set_option autoImplicit false

/-- A JSON value.  Numbers are modelled as integers: the package's payloads and
envelopes use integer-valued numbers, and `fmt` / `encoding/json` rendering of
such values agrees with the decimal representation used here. -/
inductive Json where
  | null : Json
  | bool (b : Bool) : Json
  | num (n : Int) : Json
  | str (s : String) : Json
  | arr (elems : List Json) : Json
  | obj (fields : List (String × Json)) : Json

/-- The `"` character (kept out of character-literal syntax). -/
def dquote : Char := Char.ofNat 34

/-- The `\` character. -/
def bslash : Char := Char.ofNat 92

/-- The opening-brace character. -/
def lbrace : Char := Char.ofNat 123

/-- The closing-brace character. -/
def rbrace : Char := Char.ofNat 125

/-- Skip JSON whitespace, as `encoding/json` does. -/
def skipWs : List Char → List Char
  | [] => []
  | c :: cs =>
    if c = ' ' ∨ c = '\t' ∨ c = '\n' ∨ c = '\r' then skipWs cs else c :: cs

/-- Parse the body of a JSON string after the opening quote, handling the
basic escapes used by this package's payloads.  Returns the decoded string and
the input following the closing quote. -/
def parseStringBody : Nat → List Char → List Char → Option (String × List Char)
  | 0, _, _ => none
  | _, [], _ => none
  | fuel + 1, c :: cs, acc =>
    if c = dquote then some (String.mk acc.reverse, cs)
    else if c = bslash then
      match cs with
      | [] => none
      | e :: cs2 =>
        let esc : Option Char :=
          if e = dquote then some dquote
          else if e = bslash then some bslash
          else if e = '/' then some '/'
          else if e = 'n' then some '\n'
          else if e = 't' then some '\t'
          else if e = 'r' then some '\r'
          else none
        match esc with
        | some ch => parseStringBody fuel cs2 (ch :: acc)
        | none => none
    else parseStringBody fuel cs (c :: acc)

/-- Split off a maximal run of decimal digits. -/
def takeDigits : List Char → List Char × List Char
  | [] => ([], [])
  | c :: cs =>
    if c.isDigit then
      let r := takeDigits cs
      (c :: r.1, r.2)
    else ([], c :: cs)

/-- Numeric value of a digit run. -/
def digitsVal (ds : List Char) : Nat :=
  ds.foldl (fun a c => a * 10 + (c.toNat - 48)) 0

/-- Insert a parsed object member with Go map semantics: a key that occurs
again later in the text is overwritten by the later occurrence (the tail
`fields` holds the later members, already deduplicated). -/
def objInsert (k : String) (v : Json) (fields : List (String × Json)) :
    List (String × Json) :=
  if fields.any (fun p => p.1 == k) then fields else (k, v) :: fields

/-- Parse a JSON number: optional minus sign, digits with no redundant leading
zero; fractional and exponent forms are outside the modelled subdomain. -/
def parseNum (cs : List Char) : Option (Json × List Char) :=
  let signed := match cs with
    | c :: rest => if c = '-' then (true, rest) else (false, cs)
    | [] => (false, cs)
  let ds := takeDigits signed.2
  match ds.1 with
  | [] => none
  | d0 :: drest =>
    if d0 = '0' ∧ drest ≠ [] then none
    else
      match ds.2 with
      | e :: _ =>
        if e = '.' ∨ e = 'e' ∨ e = 'E' then none
        else
          let n : Int := Int.ofNat (digitsVal ds.1)
          some (Json.num (if signed.1 then -n else n), ds.2)
      | [] =>
        let n : Int := Int.ofNat (digitsVal ds.1)
        some (Json.num (if signed.1 then -n else n), ds.2)

/-- Recursive-descent parser for a JSON value, fuelled to keep the recursion
structural.  Arrays and objects are parsed one element at a time, re-entering
the parser on a re-prefixed opening bracket for the remaining elements;
trailing commas are rejected as `encoding/json` does. -/
def parseVal : Nat → List Char → Option (Json × List Char)
  | 0, _ => none
  | fuel + 1, input =>
    match skipWs input with
    | [] => none
    | 'n' :: 'u' :: 'l' :: 'l' :: rest => some (Json.null, rest)
    | 't' :: 'r' :: 'u' :: 'e' :: rest => some (Json.bool true, rest)
    | 'f' :: 'a' :: 'l' :: 's' :: 'e' :: rest => some (Json.bool false, rest)
    | c :: rest =>
      if c = dquote then
        match parseStringBody (fuel + 1) rest [] with
        | some (s, r) => some (Json.str s, r)
        | none => none
      else if c = '-' ∨ c.isDigit then
        parseNum (c :: rest)
      else if c = '[' then
        match skipWs rest with
        | ']' :: r => some (Json.arr [], r)
        | rest1 =>
          match parseVal fuel rest1 with
          | none => none
          | some (v, r1) =>
            match skipWs r1 with
            | ']' :: r2 => some (Json.arr [v], r2)
            | ',' :: r2 =>
              match skipWs r2 with
              | ']' :: _ => none
              | r3 =>
                match parseVal fuel ('[' :: r3) with
                | some (Json.arr vs, r4) => some (Json.arr (v :: vs), r4)
                | _ => none
            | _ => none
      else if c = lbrace then
        match skipWs rest with
        | r0 =>
          match r0 with
          | k0 :: r1 =>
            if k0 = rbrace then some (Json.obj [], r1)
            else if k0 = dquote then
              match parseStringBody (fuel + 1) r1 [] with
              | none => none
              | some (k, r2) =>
                match skipWs r2 with
                | ':' :: r3 =>
                  match parseVal fuel r3 with
                  | none => none
                  | some (v, r4) =>
                    match skipWs r4 with
                    | d :: r5 =>
                      if d = rbrace then some (Json.obj [(k, v)], r5)
                      else if d = ',' then
                        match skipWs r5 with
                        | e :: r6 =>
                          if e = rbrace then none
                          else
                            match parseVal fuel (lbrace :: e :: r6) with
                            | some (Json.obj fs, r7) =>
                              some (Json.obj (objInsert k v fs), r7)
                            | _ => none
                        | [] => none
                      else none
                    | [] => none
                | _ => none
            else none
          | [] => none
      else none

/-- `parseJson` models `encoding/json.Unmarshal` of a raw body into a generic
JSON value: leading/trailing whitespace is allowed, any other trailing data is
an error. -/
def parseJson (s : String) : Option Json :=
  match parseVal (2 * s.length + 4) s.data with
  | some (v, rest) => if skipWs rest = [] then some v else none
  | none => none

/-- Substring test on character lists (`needle` occurs contiguously). -/
def containsSub (needle : List Char) : List Char → Bool
  | [] => needle.isEmpty
  | c :: cs => needle.isPrefixOf (c :: cs) || containsSub needle cs

/-- `strContains hay needle`: `needle` occurs in `hay`. -/
def strContains (hay needle : String) : Bool :=
  containsSub needle.data hay.data

/-- Lookup in the extracted field mapping (`result.values[key]`).  Keys are
unique after `objInsert`, so first match suffices. -/
def mapGet (fields : List (String × Json)) (key : String) : Option Json :=
  match fields.find? (fun p => p.1 == key) with
  | some p => some p.2
  | none => none

/-- Sort object fields by key, as `encoding/json.Marshal` does for Go maps. -/
def insertSorted (x : String × Json) : List (String × Json) → List (String × Json)
  | [] => [x]
  | y :: ys => if x.1 < y.1 ∨ x.1 = y.1 then x :: y :: ys else y :: insertSorted x ys

/-- Key-sorted field list. -/
def sortFields (fields : List (String × Json)) : List (String × Json) :=
  fields.foldr insertSorted []

/-- Render a string as a JSON string literal with the basic escapes
(`encoding/json.Marshal` on the modelled subdomain). -/
def renderString (s : String) : String :=
  let esc : Char → List Char := fun c =>
    if c = dquote then [bslash, dquote]
    else if c = bslash then [bslash, bslash]
    else if c = '\n' then [bslash, 'n']
    else if c = '\t' then [bslash, 't']
    else if c = '\r' then [bslash, 'r']
    else [c]
  String.mk (dquote :: (s.data.flatMap esc) ++ [dquote])

mutual

/-- Node count of a JSON value: an executable fuel bound for rendering
(strictly exceeds the nesting depth). -/
def Json.size : Json → Nat
  | Json.null => 1
  | Json.bool _ => 1
  | Json.num _ => 1
  | Json.str _ => 1
  | Json.arr xs => 1 + sizeElems xs
  | Json.obj fs => 1 + sizeFields fs

/-- Total size of array elements. -/
def sizeElems : List Json → Nat
  | [] => 0
  | x :: xs => Json.size x + sizeElems xs

/-- Total size of object members. -/
def sizeFields : List (String × Json) → Nat
  | [] => 0
  | kv :: xs => Json.size kv.2 + sizeFields xs

end

/-- Fuelled rendering of a JSON value (`encoding/json.Marshal` of a generic
`interface{}` value): maps are rendered with sorted keys, numbers in decimal.
The fuel keeps the recursion structural; `Json.render` supplies enough. -/
def renderF : Nat → Json → String
  | 0, _ => ""
  | fuel + 1, j =>
    match j with
    | Json.null => "null"
    | Json.bool true => "true"
    | Json.bool false => "false"
    | Json.num n => toString n
    | Json.str s => renderString s
    | Json.arr xs => "[" ++ String.intercalate "," (xs.map (renderF fuel)) ++ "]"
    | Json.obj fs =>
      String.mk [lbrace] ++
        String.intercalate ","
          ((sortFields fs).map (fun kv => renderString kv.1 ++ ":" ++ renderF fuel kv.2))
        ++ String.mk [rbrace]

/-- `Json.render` models `encoding/json.Marshal`: `Json.size j` strictly bounds
the nesting depth, so the fuel never runs out. -/
def Json.render (j : Json) : String :=
  renderF j.size j

/-- Fuelled `fmt.Sprintf("%v", v)` on values produced by `json.Unmarshal`:
strings verbatim, bools as `true`/`false`, numbers in decimal, slices as
space-separated brackets, maps as `map[k:v ...]` with sorted keys, JSON null
(Go `nil`) as `<nil>`. -/
def goFmtF : Nat → Json → String
  | 0, _ => ""
  | fuel + 1, j =>
    match j with
    | Json.null => "<nil>"
    | Json.bool true => "true"
    | Json.bool false => "false"
    | Json.num n => toString n
    | Json.str s => s
    | Json.arr xs => "[" ++ String.intercalate " " (xs.map (goFmtF fuel)) ++ "]"
    | Json.obj fs =>
      "map[" ++
        String.intercalate " "
          ((sortFields fs).map (fun kv => kv.1 ++ ":" ++ goFmtF fuel kv.2))
      ++ "]"

/-- Default `%v` rendering of one query-parameter value. -/
def goFmtV (j : Json) : String :=
  goFmtF j.size j

/-- An HTTP response as this package observes it through resty: status code,
status text (resty `Status()` is the Go status line, `"400 Bad Request"`), and
the raw body bytes (`Body()`). -/
structure Response where
  statusCode : Nat
  statusText : String
  body : String

/-- The Go status line `resp.Status()`. -/
def Response.status (r : Response) : String :=
  toString r.statusCode ++ " " ++ r.statusText

/-- `resultImpl`: the `Result` implementation.  `err` is the stored Go error
(`none` = nil), `resp` the possibly-nil `*resty.Response`, `values` the
lazily-extracted field mapping (`none` = nil Go map). -/
structure resultImpl where
  err : Option String
  resp : Option Response
  values : Option (List (String × Json))

/-- `newResult(err, resp)`: the values map starts nil (extraction is lazy). -/
def newResult (err : Option String) (resp : Option Response) : resultImpl :=
  ⟨err, resp, none⟩

/-- `Response()` accessor. -/
def resultImpl.Response (result : resultImpl) : Option Response :=
  result.resp

/-- `extractValues`: populate the values map at most once.  A nil map with a
nil response returns early (map stays nil); otherwise an empty map is created,
`json.Unmarshal(resp.Body(), &values)` fills it — its error is ignored, so a
body that is not a JSON object leaves the map empty — and the map is stored. -/
def resultImpl.extractValues (result : resultImpl) : resultImpl :=
  if result.values.isSome then result
  else
    match result.resp with
    | none => result
    | some resp =>
      let values : List (String × Json) :=
        match parseJson resp.body with
        | some (Json.obj fields) => fields
        | _ => []
      { result with values := some values }

/-- `OK()`: `result.err == nil && result.resp.StatusCode() == 200`.  The `&&`
short-circuits, so a stored error gives `false` without touching `resp`; with
no stored error and a nil `resp`, `StatusCode()` dereferences the nil
`*resty.Response` and panics (modelled as `none`). -/
def resultImpl.OK (result : resultImpl) : Option Bool :=
  match result.err with
  | some _ => some false
  | none =>
    match result.resp with
    | none => none
    | some resp => some (resp.statusCode == 200)

/-- `Fail()`: `!result.OK()` (a panic in `OK` propagates). -/
def resultImpl.Fail (result : resultImpl) : Option Bool :=
  result.OK.map (fun b => !b)

/-- `Error()`: nil when `OK()`; else the stored error; else an error built
from the status line and raw body.  The final `return nil` is kept, though the
initial `OK()` call already panics whenever it would be reached. -/
def resultImpl.Error (result : resultImpl) : Option (Option String) :=
  match result.OK with
  | none => none
  | some true => some none
  | some false =>
    match result.err with
    | some e => some (some e)
    | none =>
      match result.resp with
      | some resp =>
        some (some ("status code(" ++ resp.status ++ ") " ++ resp.body))
      | none => some none

/-- `Value(key, v)`: run lazy extraction, look the key up (a nil map lookup is
an ordinary miss), and on a miss build the `unknown return value` error — which
reads `result.resp.Body()` and therefore panics (`none`) when the response is
nil.  On a hit, `json.Marshal(data)` (which cannot fail for values produced by
`Unmarshal`) followed by `json.Unmarshal(buff, v)` is modelled by the decoder
`dec`, standing for deserialization into the caller's target type: `Except.ok`
means the target was populated and nil was returned. -/
def resultImpl.Value {α : Type} (result : resultImpl) (key : String)
    (dec : Json → Except String α) : Option (resultImpl × Except String α) :=
  let r := result.extractValues
  match mapGet (r.values.getD []) key with
  | none =>
    match r.resp with
    | none => none
    | some resp =>
      some (r, Except.error ("unknown return value " ++ key ++ "\n" ++ resp.body))
  | some data =>
    match dec data with
    | Except.error e =>
      some (r, Except.error
        ("unmarshal result(" ++ key ++ ") err " ++ e ++ "\n" ++ data.render))
    | Except.ok v => some (r, Except.ok v)

/-- `Values()`: returns the internal mapping as-is, never extracting. -/
def resultImpl.Values (result : resultImpl) : Option (List (String × Json)) :=
  result.values

/-- The outgoing HTTP request as the package builds it: the resty request's
body and query parameters together with the raw request's headers (the object
the `Option` closures mutate).  Headers form an ordered multimap, as
`net/http.Header` does: `Add` appends, `Get` reads the first value. -/
structure HttpRequest where
  headers : List (String × String)
  queryParams : List (String × String)
  body : Option Json

/-- The fresh request produced by `resty.R()`. -/
def emptyRequest : HttpRequest :=
  ⟨[], [], none⟩

/-- `Option`: a request-mutating closure, `func(request *http.Request)`. -/
def ReqOption : Type :=
  HttpRequest → HttpRequest

/-- `request.Header.Get(key)`: first value for the key. -/
def headerGet (req : HttpRequest) (key : String) : Option String :=
  (req.headers.find? (fun p => p.1 == key)).map (fun p => p.2)

/-- `request.Header.Add(key, value)`: append a value. -/
def headerAdd (key value : String) : ReqOption :=
  fun req => { req with headers := req.headers ++ [(key, value)] }

/-- `request.Header.Set(key, value)`: replace all values for the key. -/
def headerSet (key value : String) : ReqOption :=
  fun req =>
    { req with headers := req.headers.filter (fun p => !(p.1 == key)) ++ [(key, value)] }

/-- `WithJWToken(token)`: `request.Header.Add("Authorization", "Bearer <token>")`. -/
def WithJWToken (token : String) : ReqOption :=
  headerAdd "Authorization" ("Bearer " ++ token)

/-- `for _, option := range options { option(r.RawRequest) }`: options applied
in the order supplied by the caller. -/
def applyOptions (options : List ReqOption) (req : HttpRequest) : HttpRequest :=
  options.foldl (fun r o => o r) req

/-- A parsed URL on the subdomain this package uses: absolute
`scheme://host/path` URLs and scheme-less relative references, with an
optional raw query. -/
structure URL where
  scheme : String
  host : String
  path : String
  rawQuery : String

/-- Split at the first `://`, yielding the scheme and the remainder. -/
def findSchemeSep : List Char → Option (List Char × List Char)
  | [] => none
  | ':' :: '/' :: '/' :: rest => some ([], rest)
  | c :: cs =>
    match findSchemeSep cs with
    | some pr => some (c :: pr.1, pr.2)
    | none => none

/-- Split a host from the path that follows it. -/
def spanUntilSlash : List Char → List Char × List Char
  | [] => ([], [])
  | c :: cs =>
    if c = '/' then ([], c :: cs)
    else
      let r := spanUntilSlash cs
      (c :: r.1, r.2)

/-- Split off the raw query at the first `?`. -/
def splitQuery : List Char → List Char × List Char
  | [] => ([], [])
  | c :: cs =>
    if c = '?' then ([], cs)
    else
      let r := splitQuery cs
      (c :: r.1, r.2)

/-- `url.Parse` on the modelled subdomain: any ASCII control character is
rejected (`net/url: invalid control character in URL`); otherwise the query is
split at the first `?`, an absolute `scheme://host/path` reference is split at
`://` and the first `/` after the host, and anything else is a relative
reference carried entirely in the path. -/
def urlParse (s : String) : Except String URL :=
  if s.data.any (fun c => c.toNat < 32 ∨ c.toNat = 127) then
    Except.error "net/url: invalid control character in URL"
  else
    let bq := splitQuery s.data
    match findSchemeSep bq.1 with
    | some pr =>
      let hp := spanUntilSlash pr.2
      Except.ok ⟨String.mk pr.1, String.mk hp.1, String.mk hp.2, String.mk bq.2⟩
    | none => Except.ok ⟨"", "", String.mk bq.1, String.mk bq.2⟩

/-- Does the string start with `/`? -/
def startsWithSlash (s : String) : Bool :=
  match s.data with
  | c :: _ => c = '/'
  | [] => false

/-- `u.String()` for the modelled URL: `scheme://host`, a separating `/` when
the host is non-empty and the path does not start with one, the path, then the
query. -/
def urlString (u : URL) : String :=
  let base := if u.scheme = "" ∧ u.host = "" then "" else u.scheme ++ "://" ++ u.host
  let sep :=
    if u.host ≠ "" ∧ u.path ≠ "" ∧ startsWithSlash u.path = false then "/" else ""
  let q := if u.rawQuery = "" then "" else "?" ++ u.rawQuery
  base ++ sep ++ u.path ++ q

/-- Interleave a separator character. -/
def joinWith (sep : Char) : List (List Char) → List Char
  | [] => []
  | [x] => x
  | x :: xs => x ++ sep :: joinWith sep xs

/-- Split on a separator character (`strings.Split` shape). -/
def splitOnChar (sep : Char) : List Char → List (List Char)
  | [] => [[]]
  | c :: cs =>
    let r := splitOnChar sep cs
    if c = sep then [] :: r
    else
      match r with
      | h :: t => (c :: h) :: t
      | [] => [[c]]

/-- `filepath.Clean` with `/` separators (Go's lexical path cleaning):
empty path becomes `.`, duplicate slashes collapse, `.` elements drop, `..`
elements pop non-`..` elements (and vanish at the root), trailing slashes
drop, and an emptied relative path becomes `.`. -/
def cleanPath (p : String) : String :=
  match p.data with
  | [] => "."
  | c0 :: rest0 =>
    let rooted := c0 = '/'
    let comps := splitOnChar '/' (c0 :: rest0)
    let stack := comps.foldl
      (fun stack comp =>
        if comp = [] ∨ comp = ['.'] then stack
        else if comp = ['.', '.'] then
          match stack with
          | top :: tail => if top = ['.', '.'] then comp :: stack else tail
          | [] => if rooted then [] else [comp]
        else comp :: stack)
      []
    let core := joinWith '/' stack.reverse
    if rooted then String.mk ('/' :: core)
    else if core = [] then "."
    else String.mk core

/-- `clientImpl.checkURL`: parse the concatenated URL, `filepath.Clean` its
path component, and re-serialize; a parse failure is returned as-is. -/
def checkURL (s : String) : Except String String :=
  match urlParse s with
  | Except.error e => Except.error e
  | Except.ok u => Except.ok (urlString { u with path := cleanPath u.path })

/-- `clientImpl.requestToMap`: `json.Marshal` the payload (which cannot fail on
the modelled payload domain), `json.Unmarshal` the bytes into
`map[string]interface{}` — a JSON `null` leaves the map nil, any non-object
value is an unmarshal error — then render every value with `fmt.Sprintf("%v")`
into a string-to-string map. -/
def requestToMap (request : Json) : Except String (List (String × String)) :=
  match request with
  | Json.null => Except.ok []
  | Json.obj fields => Except.ok (fields.map (fun kv => (kv.1, goFmtV kv.2)))
  | _ =>
    Except.error
      "json: cannot unmarshal value into Go value of type map[string]interface \x7b\x7d"

/-- An `Auth` adapter's `Handle` method, as a request mutator. -/
def AuthHandler : Type :=
  HttpRequest → HttpRequest

/-- `clientImpl`: base URL, the never-engaged `sync.RWMutex` (its state
modelled as a bare `Nat`), and the never-assigned `auth` field. -/
structure clientImpl where
  lock : Nat
  url : String
  auth : Option AuthHandler

/-- `New(url)`: zero-valued lock and auth. -/
def New (url : String) : clientImpl :=
  ⟨0, url, none⟩

/-- The HTTP transport behind resty: given method, target URL and the built
request, it yields `(resp, err)`.  It is an external collaborator, so the
verbs are parametric in it. -/
def Transport : Type :=
  String → String → HttpRequest → Option Response × Option String

/-- `clientImpl.POST`: set the body, apply the options in order, build and
clean the target URL from `fmt.Sprintf("%s%s", client.url, path)` — a parse
failure short-circuits to `newResult(err, nil)` — then invoke the transport
and wrap its outcome. -/
def clientImpl.POST (client : clientImpl) (path : String) (request : Json)
    (options : List ReqOption) (transport : Transport) : resultImpl :=
  let r := applyOptions options { emptyRequest with body := some request }
  match checkURL (client.url ++ path) with
  | Except.error e => newResult (some e) none
  | Except.ok url =>
    let p := transport "POST" url r
    newResult p.2 p.1

/-- `clientImpl.GET`: convert the payload to a query map — a failure
short-circuits to `newResult(err, nil)` — set the query parameters, apply the
options in order, build and clean the target URL, then invoke the transport. -/
def clientImpl.GET (client : clientImpl) (path : String) (request : Json)
    (options : List ReqOption) (transport : Transport) : resultImpl :=
  match requestToMap request with
  | Except.error e => newResult (some e) none
  | Except.ok params =>
    let r := applyOptions options { emptyRequest with queryParams := params }
    match checkURL (client.url ++ path) with
    | Except.error e => newResult (some e) none
    | Except.ok url =>
      let p := transport "GET" url r
      newResult p.2 p.1

/-- `clientImpl.DELETE`: identical to `GET` except for the verb. -/
def clientImpl.DELETE (client : clientImpl) (path : String) (request : Json)
    (options : List ReqOption) (transport : Transport) : resultImpl :=
  match requestToMap request with
  | Except.error e => newResult (some e) none
  | Except.ok params =>
    let r := applyOptions options { emptyRequest with queryParams := params }
    match checkURL (client.url ++ path) with
    | Except.error e => newResult (some e) none
    | Except.ok url =>
      let p := transport "DELETE" url r
      newResult p.2 p.1

/-! ### Helper lemmas shared by the claim theorems -/

/-- A fresh values map, a present response and an object body make
`extractValues` store exactly the body's fields. -/
theorem extractValues_spec (r : resultImpl) (resp : Response)
    (fields : List (String × Json)) (hfresh : r.values = none)
    (hresp : r.resp = some resp)
    (hbody : parseJson resp.body = some (Json.obj fields)) :
    r.extractValues = { r with values := some fields } := by
  simp [resultImpl.extractValues, hfresh, hresp, hbody]

/-- `extractValues` is the identity once the map is populated (the cache). -/
theorem extractValues_of_some (r : resultImpl) (vs : List (String × Json))
    (h : r.values = some vs) : r.extractValues = r := by
  simp [resultImpl.extractValues, h]

/-- Finding a key right after `headerSet` yields the freshly set value. -/
theorem find_after_headerSet (l : List (String × String)) (k v : String) :
    (l.filter (fun p => !(p.1 == k)) ++ [(k, v)]).find? (fun p => p.1 == k)
      = some (k, v) := by
  induction l with
  | nil => simp
  | cons hd tl ih =>
    by_cases hk : hd.1 = k
    · simp [hk, ih]
    · simp only [List.filter_cons]
      have : (hd.1 == k) = false := by simpa using hk
      simp [this, ih]

/-- `find?` over an appended list searches left to right. -/
theorem find_append (l1 l2 : List (String × String)) (p : String × String → Bool) :
    (l1 ++ l2).find? p = ((l1.find? p).orElse (fun _ => l2.find? p)) := by
  induction l1 with
  | nil => simp
  | cons hd tl ih =>
    by_cases hp : p hd
    · simp [List.find?, hp]
    · have hp2 : p hd = false := by simpa using hp
      simp [List.find?, hp2, ih]

/-! ### Concrete data for the witnesses -/

/-- The 200-response body of the spec's `Value` example. -/
def bodyC1 : String :=
  "\x7b\"result\":\x7b\"id\":42\x7d\x7d"

/-- The response of the spec's `Value` example. -/
def respC1 : Response :=
  ⟨200, "OK", bodyC1⟩

/-- The parsed envelope fields of `bodyC1`. -/
def fieldsC1 : List (String × Json) :=
  [("result", Json.obj [("id", Json.num 42)])]

/-- The caller's typed target in the `Value` example. -/
structure IdRec where
  id : Int

/-- `json.Unmarshal` into `IdRec`: needs an object with an integer `id`. -/
def decodeIdRec : Json → Except String IdRec
  | Json.obj fields =>
    match mapGet fields "id" with
    | some (Json.num n) => Except.ok ⟨n⟩
    | _ => Except.error "cannot unmarshal into Go struct field IdRec.id of type int64"
  | _ => Except.error "cannot unmarshal into Go value of type IdRec"

/-- The 400-response body of the spec's `Error` example. -/
def bodyC9 : String :=
  "\x7b\"code\":1,\"msg\":\"bad\",\"data\":\x7b\"x\":1\x7d\x7d"

/-- The error text `Error()` synthesizes for the 400 example. -/
def msgC9 : String :=
  "status code(400 Bad Request) " ++ bodyC9

/-- A transport that fails with a transport error. -/
def transportDown : Transport :=
  fun _ _ _ => (none, some "dial tcp: connection refused")

/-- A transport that answers 200 with an empty object body. -/
def transportUp : Transport :=
  fun _ _ _ => (some ⟨200, "OK", "\x7b\x7d"⟩, none)

/-! ### Claim theorems -/

/-- C1: for a Result whose response has status 200 and a JSON-object body,
`Value(key, target)` on a key present in the object decodes the field's value
into the target and returns nil error; on an absent key it returns the non-nil
`unknown return value` error; extraction happens lazily on the first `Value`
call (the fresh map is nil and becomes exactly the body's fields), is cached
(`extractValues` is then the identity), and later `Value` calls see the cached
mapping. -/
theorem c1_value_lazy_extraction {α : Type} (r : resultImpl) (resp : Response)
    (fields : List (String × Json)) (hresp : r.resp = some resp)
    (_hstat : resp.statusCode = 200)
    (hbody : parseJson resp.body = some (Json.obj fields))
    (hfresh : r.values = none) :
    (∀ (key : String) (data : Json) (dec : Json → Except String α) (v : α),
        mapGet fields key = some data → dec data = Except.ok v →
        r.Value key dec = some ({ r with values := some fields }, Except.ok v))
    ∧ (∀ (key : String) (dec : Json → Except String α),
        mapGet fields key = none →
        r.Value key dec
          = some ({ r with values := some fields },
              Except.error ("unknown return value " ++ key ++ "\n" ++ resp.body)))
    ∧ ({ r with values := some fields } : resultImpl).extractValues
        = { r with values := some fields }
    ∧ (∀ (key : String) (dec : Json → Except String α),
        ({ r with values := some fields } : resultImpl).Value key dec
          = r.Value key dec) := by
  have hex := extractValues_spec r resp fields hfresh hresp hbody
  have hex2 : ({ r with values := some fields } : resultImpl).extractValues
      = { r with values := some fields } :=
    extractValues_of_some _ fields rfl
  refine ⟨?_, ?_, hex2, ?_⟩
  · intro key data dec v hkey hdec
    simp [resultImpl.Value, hex, hkey, hdec]
  · intro key dec hkey
    simp [resultImpl.Value, hex, hkey, hresp]
  · intro key dec
    simp [resultImpl.Value, hex, hex2]

/-- C1 witness: on body `{"result":{"id":42}}` with status 200, `Value("result", &target)`
returns nil error and populates `target.id = 42`, and `Value("missing", &target)`
returns the `unknown return value` error. -/
theorem c1_value_lazy_extraction_witness :
    (newResult none (some respC1)).Value "result" decodeIdRec
      = some (⟨none, some respC1, some fieldsC1⟩, Except.ok ⟨42⟩)
    ∧ (newResult none (some respC1)).Value "missing" decodeIdRec
      = some (⟨none, some respC1, some fieldsC1⟩,
          Except.error ("unknown return value " ++ "missing" ++ "\n" ++ respC1.body)) := by
  have h := c1_value_lazy_extraction (α := IdRec) (newResult none (some respC1))
    respC1 fieldsC1 rfl rfl (by rfl) rfl
  exact ⟨h.1 "result" (Json.obj [("id", Json.num 42)]) decodeIdRec ⟨42⟩ rfl rfl,
    h.2.1 "missing" decodeIdRec rfl⟩

/-- C2: `OK()` returns true exactly when the stored error is nil and a
response with status code exactly 200 is present; any present response with a
different status (such as 201) gives `OK() = false`; `Fail()` is always the
boolean negation of `OK()` (a panic in `OK` propagates to `Fail`). -/
theorem c2_ok_iff_status_exactly_200 (r : resultImpl) :
    (r.OK = some true
      ↔ r.err = none ∧ ∃ resp, r.resp = some resp ∧ resp.statusCode = 200)
    ∧ (∀ resp, r.resp = some resp → resp.statusCode ≠ 200 → r.OK = some false)
    ∧ r.Fail = r.OK.map (fun b => !b) := by
  obtain ⟨err, resp, vals⟩ := r
  refine ⟨?_, ?_, rfl⟩
  · cases err <;> cases resp <;> simp [resultImpl.OK]
  · intro resp2 h hne
    cases err <;> simp_all [resultImpl.OK]

/-- C2 witness: status 201 with no stored error gives `OK() = false` and
`Fail() = true`. -/
theorem c2_ok_iff_status_exactly_200_witness :
    (newResult none (some ⟨201, "Created", ""⟩)).OK = some false
    ∧ (newResult none (some ⟨201, "Created", ""⟩)).Fail = some true := by
  have h := c2_ok_iff_status_exactly_200 (newResult none (some ⟨201, "Created", ""⟩))
  have hok := h.2.1 ⟨201, "Created", ""⟩ rfl (by decide)
  exact ⟨hok, by rw [h.2.2, hok]; rfl⟩

/-- C3: any pre-flight failure — a malformed concatenated URL for any verb, or
a payload-to-query-map failure for GET/DELETE — produces
`newResult(err, nil)` without invoking the transport (the outcome is the same
for every transport), and that Result has `Fail() = true`, `Error()` equal to
the local error, and a nil `Response()`. -/
theorem c3_preflight_local_error (client : clientImpl) (path : String)
    (request : Json) (options : List ReqOption) (t1 t2 : Transport) (e : String) :
    (checkURL (client.url ++ path) = Except.error e →
        client.POST path request options t1 = newResult (some e) none
      ∧ client.POST path request options t1 = client.POST path request options t2)
    ∧ (requestToMap request = Except.error e →
        client.GET path request options t1 = newResult (some e) none
      ∧ client.GET path request options t1 = client.GET path request options t2
      ∧ client.DELETE path request options t1 = newResult (some e) none
      ∧ client.DELETE path request options t1 = client.DELETE path request options t2)
    ∧ (∀ params, requestToMap request = Except.ok params →
        checkURL (client.url ++ path) = Except.error e →
        client.GET path request options t1 = newResult (some e) none
      ∧ client.GET path request options t1 = client.GET path request options t2
      ∧ client.DELETE path request options t1 = newResult (some e) none
      ∧ client.DELETE path request options t1 = client.DELETE path request options t2)
    ∧ (newResult (some e) none).Fail = some true
    ∧ (newResult (some e) none).Error = some (some e)
    ∧ (newResult (some e) none).Response = none := by
  refine ⟨?_, ?_, ?_, rfl, rfl, rfl⟩
  · intro h
    constructor <;> simp [clientImpl.POST, h]
  · intro h
    refine ⟨?_, ?_, ?_, ?_⟩ <;> simp [clientImpl.GET, clientImpl.DELETE, h]
  · intro params hp h
    refine ⟨?_, ?_, ?_, ?_⟩ <;> simp [clientImpl.GET, clientImpl.DELETE, hp, h]

/-- C3 witness: a base URL with a control character fails `checkURL` for POST,
and a non-object GET payload fails `requestToMap`; both yield the same
error-carrying Result under a dead transport and a live one. -/
theorem c3_preflight_local_error_witness :
    checkURL ((New "http://ho\nst").url ++ "/x") = Except.error
      "net/url: invalid control character in URL"
    ∧ (New "http://ho\nst").POST "/x" (Json.obj []) [] transportDown
        = newResult (some "net/url: invalid control character in URL") none
    ∧ (New "http://ho\nst").POST "/x" (Json.obj []) [] transportDown
        = (New "http://ho\nst").POST "/x" (Json.obj []) [] transportUp
    ∧ requestToMap (Json.num 5) = Except.error
      "json: cannot unmarshal value into Go value of type map[string]interface \x7b\x7d"
    ∧ (New "http://host").GET "/x" (Json.num 5) [] transportDown
        = (New "http://host").GET "/x" (Json.num 5) [] transportUp
    ∧ (newResult
        (some "net/url: invalid control character in URL") none).Fail = some true := by
  have h := c3_preflight_local_error (New "http://ho\nst") "/x" (Json.obj []) []
    transportDown transportUp "net/url: invalid control character in URL"
  have h2 := c3_preflight_local_error (New "http://host") "/x" (Json.num 5) []
    transportDown transportUp
    "json: cannot unmarshal value into Go value of type map[string]interface \x7b\x7d"
  exact ⟨rfl, (h.1 (by rfl)).1, (h.1 (by rfl)).2, rfl, (h2.2.1 (by rfl)).2.1, h.2.2.2.1⟩

/-- C4: every verb sends to the URL built by concatenating the base URL and
the path, parsing, and `filepath.Clean`-normalizing the path component
(collapsing duplicate slashes and resolving `.`/`..`); in particular base
`http://host/api/` with path `/v1//users` yields `http://host/api/v1/users`. -/
theorem c4_url_concat_parse_clean (client : clientImpl) (path : String)
    (request : Json) (options : List ReqOption) (t : Transport) :
    (∀ u, checkURL (client.url ++ path) = Except.ok u →
        client.POST path request options t
          = (let p := t "POST" u
              (applyOptions options { emptyRequest with body := some request })
             newResult p.2 p.1))
    ∧ (∀ u params, requestToMap request = Except.ok params →
        checkURL (client.url ++ path) = Except.ok u →
        client.GET path request options t
          = (let p := t "GET" u
              (applyOptions options { emptyRequest with queryParams := params })
             newResult p.2 p.1)
      ∧ client.DELETE path request options t
          = (let p := t "DELETE" u
              (applyOptions options { emptyRequest with queryParams := params })
             newResult p.2 p.1))
    ∧ (∀ s, checkURL s
        = (urlParse s).map (fun u => urlString { u with path := cleanPath u.path }))
    ∧ checkURL ("http://host/api/" ++ "/v1//users") = Except.ok "http://host/api/v1/users"
    ∧ cleanPath "/api//v1//users" = "/api/v1/users"
    ∧ cleanPath "/a/./b/../c" = "/a/c" := by
  refine ⟨?_, ?_, ?_, by rfl, by rfl, by rfl⟩
  · intro u h
    simp [clientImpl.POST, h]
  · intro u params hp h
    constructor <;> simp [clientImpl.GET, clientImpl.DELETE, hp, h]
  · intro s
    cases h : urlParse s <;> simp [checkURL, h, Except.map]

/-- C4 witness: the example instantiated — a client with base
`http://host/api/` POSTs `/v1//users` to `http://host/api/v1/users`. -/
theorem c4_url_concat_parse_clean_witness :
    checkURL ("http://host/api/" ++ "/v1//users") = Except.ok "http://host/api/v1/users"
    ∧ (New "http://host/api/").POST "/v1//users" (Json.obj []) [] transportUp
        = (let p := transportUp "POST" "http://host/api/v1/users"
            (applyOptions [] { emptyRequest with body := some (Json.obj []) })
           newResult p.2 p.1) := by
  have h := c4_url_concat_parse_clean (New "http://host/api/") "/v1//users"
    (Json.obj []) [] transportUp
  exact ⟨h.2.2.2.1, h.1 "http://host/api/v1/users" (by rfl)⟩

/-- C5: GET/DELETE query-map conversion serializes the payload to JSON,
re-decodes it into a string-keyed mapping of JSON values, and renders each
value with its default `%v` textual representation (numbers in decimal, bools
as `true`/`false`, strings verbatim) into a string-to-string map; the
conversion is a pure function, so applying it twice to the same payload yields
identical maps. -/
theorem c5_query_map_conversion (fields : List (String × Json)) (request : Json) :
    requestToMap (Json.obj fields)
      = Except.ok (fields.map (fun kv => (kv.1, goFmtV kv.2)))
    ∧ (∀ n : Int, goFmtV (Json.num n) = toString n)
    ∧ goFmtV (Json.bool true) = "true"
    ∧ goFmtV (Json.bool false) = "false"
    ∧ (∀ s : String, goFmtV (Json.str s) = s)
    ∧ requestToMap request = requestToMap request := by
  refine ⟨rfl, ?_, rfl, rfl, ?_, rfl⟩
  · intro n
    rfl
  · intro s
    rfl

/-- C6: options are applied to the request in caller order (`applyOptions` is
the left fold of the supplied list), so a later option can overwrite an
earlier one's mutation — two options that each set the `Authorization` header
leave the later value — and `WithJWToken token` makes the `Authorization`
header read `Bearer <token>` on a request that had none. -/
theorem c6_option_order_last_wins (o1 o2 : ReqOption) (options : List ReqOption)
    (req : HttpRequest) (v1 v2 token : String) :
    applyOptions (options ++ [o1]) req = o1 (applyOptions options req)
    ∧ applyOptions [o1, o2] req = o2 (o1 req)
    ∧ headerGet
        (applyOptions [headerSet "Authorization" v1, headerSet "Authorization" v2] req)
        "Authorization" = some v2
    ∧ (headerGet req "Authorization" = none →
        headerGet (WithJWToken token req) "Authorization"
          = some ("Bearer " ++ token)) := by
  refine ⟨?_, rfl, ?_, ?_⟩
  · simp [applyOptions]
  · simp [applyOptions, headerGet, headerSet, find_after_headerSet]
  · intro h
    have hf : req.headers.find? (fun p => p.1 == "Authorization") = none := by
      cases hf2 : req.headers.find? (fun p => p.1 == "Authorization") with
      | none => rfl
      | some p => simp [headerGet, hf2] at h
    simp [headerGet, WithJWToken, headerAdd, find_append, hf]

/-- C6 witness: on a fresh request, two `Authorization`-setting options leave
the second value, and `WithJWToken "tok"` yields `Bearer tok`. -/
theorem c6_option_order_last_wins_witness :
    headerGet
      (applyOptions [headerSet "Authorization" "a", headerSet "Authorization" "b"]
        emptyRequest) "Authorization" = some "b"
    ∧ headerGet (WithJWToken "tok" emptyRequest) "Authorization"
        = some ("Bearer " ++ "tok") := by
  have h := c6_option_order_last_wins id id [] emptyRequest "a" "b" "tok"
  exact ⟨h.2.2.1, h.2.2.2 rfl⟩

/-- C7: a Result carrying a nil response (as every pre-flight-failure Result
does) leaves the field mapping nil after `extractValues`, and `Value` — after
the inevitable lookup miss — evaluates `result.resp.Body()` on the nil
`*resty.Response` while formatting the field-not-found error, which is a
nil-pointer dereference: the call panics (`none`) instead of returning an
error value. -/
theorem c7_value_nil_response_panics :
    (newResult (some "parse error") none).Value "result" (fun j => Except.ok j) = none
    ∧ ((newResult (some "parse error") none).extractValues).values = none := by
  exact ⟨rfl, rfl⟩

/-- C8: `Values()` returns the internal mapping as-is and never triggers
extraction (a fresh Result answers nil even when a response is present); once
extraction is triggered on a fresh Result, the mapping stays nil exactly when
no response existed; and extraction over a present response whose body is not
a JSON object yields the empty, non-nil mapping. -/
theorem c8_values_never_extracts (r : resultImpl) (e : Option String)
    (o : Option Response) :
    r.Values = r.values
    ∧ (newResult e o).Values = none
    ∧ (r.values = none → (r.extractValues.values = none ↔ r.resp = none))
    ∧ (∀ resp, r.values = none → r.resp = some resp →
        (∀ fields, parseJson resp.body ≠ some (Json.obj fields)) →
        r.extractValues.values = some []) := by
  refine ⟨rfl, rfl, ?_, ?_⟩
  · intro h
    cases hresp : r.resp <;> simp [resultImpl.extractValues, h, hresp]
  · intro resp h hresp hne
    cases hp : parseJson resp.body with
    | none => simp [resultImpl.extractValues, h, hresp, hp]
    | some v =>
      cases v with
      | obj fields => exact absurd hp (hne fields)
      | null => simp [resultImpl.extractValues, h, hresp, hp]
      | bool b => simp [resultImpl.extractValues, h, hresp, hp]
      | num n => simp [resultImpl.extractValues, h, hresp, hp]
      | str s => simp [resultImpl.extractValues, h, hresp, hp]
      | arr xs => simp [resultImpl.extractValues, h, hresp, hp]

/-- C8 witness: a fresh Result with a present response still answers
`Values() = nil`; triggering extraction with no response keeps the mapping
nil; extraction over the non-object body `[1]` yields the empty non-nil
mapping. -/
theorem c8_values_never_extracts_witness :
    (newResult none (some ⟨200, "OK", "[1]"⟩)).Values = none
    ∧ ((newResult (some "boom") none).extractValues.values = none ↔ True)
    ∧ (newResult none (some ⟨200, "OK", "[1]"⟩)).extractValues.values = some [] := by
  have h1 := c8_values_never_extracts (newResult none (some ⟨200, "OK", "[1]"⟩))
    none (some ⟨200, "OK", "[1]"⟩)
  have h2 := c8_values_never_extracts (newResult (some "boom") none) none none
  refine ⟨h1.2.1, ?_, ?_⟩
  · simp only [iff_true]
    exact (h2.2.2.1 rfl).mpr rfl
  · refine h1.2.2.2 ⟨200, "OK", "[1]"⟩ rfl rfl ?_
    intro fields hp
    rw [show parseJson "[1]" = some (Json.arr [Json.num 1]) from rfl] at hp
    exact Json.noConfusion (Option.some.inj hp)

/-- C9 counterexample: with no stored error and no response, `Error()` does
not return nil — the `OK()` check first evaluates `resp.StatusCode()` on the
nil `*resty.Response`, a nil-pointer dereference, so the call panics (`none`)
and never reaches the defensive `return nil`. -/
theorem c9_error_nil_nil_counterexample :
    (resultImpl.mk none none none).Error ≠ some none := by
  decide

/-- C9 (amended): `Error()` returns nil whenever `OK()` is true; otherwise it
returns the stored local error if one exists; otherwise, for a present
response with a non-200 status, it synthesizes an error from the status line
and the raw body (for status 400 and body
`{"code":1,"msg":"bad","data":{"x":1}}` the text contains `400` and `bad`);
and with no stored error and no response the call panics inside the `OK()`
check instead of returning the defensive nil. -/
theorem c9_error_branches (r : resultImpl) :
    (r.OK = some true → r.Error = some none)
    ∧ (∀ e, r.err = some e → r.Error = some (some e))
    ∧ (∀ resp, r.err = none → r.resp = some resp → resp.statusCode ≠ 200 →
        r.Error = some (some ("status code(" ++ resp.status ++ ") " ++ resp.body)))
    ∧ (r.err = none → r.resp = none → r.Error = none)
    ∧ (newResult none (some ⟨400, "Bad Request", bodyC9⟩)).Error = some (some msgC9)
    ∧ strContains msgC9 "400" = true
    ∧ strContains msgC9 "bad" = true := by
  refine ⟨?_, ?_, ?_, ?_, by rfl, by rfl, by rfl⟩
  · intro h
    simp [resultImpl.Error, h]
  · intro e he
    simp [resultImpl.Error, resultImpl.OK, he]
  · intro resp he hresp hne
    have hok : r.OK = some false := by
      simp [resultImpl.OK, he, hresp, hne]
    simp [resultImpl.Error, hok, he, hresp]
  · intro he hresp
    simp [resultImpl.Error, resultImpl.OK, he, hresp]

/-- C9 witness: the branches instantiated — a 200 result gives nil, a stored
error is returned as-is, and the 400 example yields the synthesized text. -/
theorem c9_error_branches_witness :
    (newResult none (some ⟨200, "OK", "\x7b\x7d"⟩)).Error = some none
    ∧ (newResult (some "dial tcp: connection refused") none).Error
        = some (some "dial tcp: connection refused")
    ∧ (newResult none (some ⟨400, "Bad Request", bodyC9⟩)).Error
        = some (some ("status code("
            ++ (Response.mk 400 "Bad Request" bodyC9).status ++ ") "
            ++ (Response.mk 400 "Bad Request" bodyC9).body)) := by
  have h1 := c9_error_branches (newResult none (some ⟨200, "OK", "\x7b\x7d"⟩))
  have h2 := c9_error_branches (newResult (some "dial tcp: connection refused") none)
  have h3 := c9_error_branches (newResult none (some ⟨400, "Bad Request", bodyC9⟩))
  exact ⟨h1.1 (by rfl), h2.2.1 "dial tcp: connection refused" rfl,
    h3.2.2.1 ⟨400, "Bad Request", bodyC9⟩ rfl rfl (by decide)⟩

/-- C10: `New` never sets the `auth` field (or engages the lock), and no verb
reads either: two clients that differ only in `auth` and the lock state build
the same request and return the same Result for every path, payload, option
list and transport. -/
theorem c10_auth_ignored (u : String) (l1 l2 : Nat) (a1 a2 : Option AuthHandler)
    (path : String) (request : Json) (options : List ReqOption) (t : Transport) :
    (New u).auth = none
    ∧ (New u).lock = 0
    ∧ clientImpl.POST ⟨l1, u, a1⟩ path request options t
        = clientImpl.POST ⟨l2, u, a2⟩ path request options t
    ∧ clientImpl.GET ⟨l1, u, a1⟩ path request options t
        = clientImpl.GET ⟨l2, u, a2⟩ path request options t
    ∧ clientImpl.DELETE ⟨l1, u, a1⟩ path request options t
        = clientImpl.DELETE ⟨l2, u, a2⟩ path request options t := by
  exact ⟨rfl, rfl, rfl, rfl, rfl⟩
